import Mathlib

/-!
Verification of the `tools/train_logreg_sqlite.py` training pipeline.

This file shallowly embeds the data model and the operations of the
script: the SQL query of `load_training_rows` (with its `best_weak`
common table expression), `build_arrays`, the metric upsert of
`store_metrics` together with the SQLite semantics of a unique index
containing nullable columns, the commit sequence that `main` issues,
the grid-search fallback of `fit_temperature`, the gating coverage of
`log_gating_metrics`, and the byte-level blob encoding of `export_head`.

Floats are modelled by rationals (`ℚ`) where only ordering and equality
matter (confidences, probabilities, thresholds), by reals (`ℝ`) where
the mathematical value of a power matters (the log-spaced temperature
grid), and by their raw 32-bit patterns (naturals below 2^32) where the
byte layout matters (embedding vectors and exported weight blobs).
-/

namespace TrainLogreg

/-- A row of the `labels_weak` table. -/
structure WeakLabel where
  sample_id : Nat
  class_id : List Char
  confidence : ℚ
  rule_id : Nat
  ruleset_version : Int
deriving DecidableEq

/-- A row of the `labels_user` table (at most one per sample). -/
structure UserLabel where
  sample_id : Nat
  class_id : List Char
deriving DecidableEq

/-- A row of the `embeddings` table; `vec` is the raw byte blob. -/
structure Embedding where
  sample_id : Nat
  model_id : String
  vec : List Nat
deriving DecidableEq

/-- The tables read by `load_training_rows`. -/
structure DB where
  labels_weak : List WeakLabel
  labels_user : List UserLabel
  embeddings : List Embedding
deriving DecidableEq

/-- One output row of the training query: sample id, raw vector bytes and
the computed `class_id` column (nullable in the user-label branch). -/
structure TrainRow where
  sample_id : Nat
  vec : List Nat
  class_id : Option (List Char)
deriving DecidableEq

/-- The weak labels admitted by the inner subquery for one sample:
matching `ruleset_version` and `confidence >= min_confidence`
(`l2.sample_id = l.sample_id AND l2.ruleset_version = ? AND l2.confidence >= ?`). -/
def qualifying (db : DB) (rv : Int) (mc : ℚ) (s : Nat) : List WeakLabel :=
  db.labels_weak.filter fun l =>
    l.sample_id == s && l.ruleset_version == rv && decide (mc ≤ l.confidence)

/-- The strict ordering used by `ORDER BY l2.confidence DESC, l2.class_id ASC`:
`a` sorts strictly before `b`. -/
def weakBetter (a b : WeakLabel) : Bool :=
  decide (b.confidence < a.confidence) ||
    (a.confidence == b.confidence && decide (a.class_id < b.class_id))

/-- The row selected by `ORDER BY confidence DESC, class_id ASC LIMIT 1`:
`none` on an empty candidate list. -/
def topPick : List WeakLabel → Option WeakLabel
  | [] => none
  | l :: ls => some (ls.foldl (fun best x => if weakBetter x best then x else best) l)

/-- The scalar subquery of the `best_weak` CTE: the `class_id` of the
top-ranked qualifying weak label (NULL when no row qualifies). -/
def topClass (cands : List WeakLabel) : Option (List Char) :=
  (topPick cands).map (fun w => w.class_id)

/-- The `best_weak` common table expression: every qualifying weak-label
row whose `class_id` equals the sample's top-ranked class.  Note the CTE
keeps every such row, it does not deduplicate per sample. -/
def bestWeakRows (db : DB) (rv : Int) (mc : ℚ) : List WeakLabel :=
  db.labels_weak.filter fun l =>
    l.ruleset_version == rv && decide (mc ≤ l.confidence) &&
      topClass (qualifying db rv mc l.sample_id) == some l.class_id

/-- SQL `LEFT JOIN` row multiplicity: an empty match list yields one NULL
row, otherwise one row per match. -/
def leftOpts {α : Type} (l : List α) : List (Option α) :=
  if l.isEmpty then [none] else l.map some

/-- SQL `COALESCE(u.class_id, w.class_id)`. -/
def coalesceClass (u : Option UserLabel) (w : Option WeakLabel) : Option (List Char) :=
  match u with
  | some ul => some ul.class_id
  | none => w.map (fun wl => wl.class_id)

/-- Comparison used by `ORDER BY e.sample_id ASC`. -/
def embLE (a b : Embedding) : Prop := a.sample_id ≤ b.sample_id

instance : DecidableRel embLE := fun a b => Nat.decLe a.sample_id b.sample_id

/-- The embeddings participating in the query: `e.model_id = ?`, ordered
by `e.sample_id ASC`. -/
def sortedEmbeddings (db : DB) (m : String) : List Embedding :=
  (db.embeddings.filter fun e => e.model_id == m).insertionSort embLE

/-- The rows one embedding contributes in the `use_user_labels = False`
branch: an inner `JOIN best_weak w ON w.sample_id = e.sample_id`. -/
def rowsOfEmbFalse (db : DB) (rv : Int) (mc : ℚ) (e : Embedding) : List TrainRow :=
  ((bestWeakRows db rv mc).filter fun w => w.sample_id == e.sample_id).map
    fun w => ⟨e.sample_id, e.vec, some w.class_id⟩

/-- The rows one embedding contributes in the `use_user_labels = True`
branch: `LEFT JOIN labels_user u` and `LEFT JOIN best_weak w`, the class
column `COALESCE(u.class_id, w.class_id)`, filtered by
`u.class_id IS NOT NULL OR w.class_id IS NOT NULL`. -/
def rowsOfEmbTrue (db : DB) (rv : Int) (mc : ℚ) (e : Embedding) : List TrainRow :=
  (((leftOpts (db.labels_user.filter fun u => u.sample_id == e.sample_id)).flatMap
      fun u =>
        (leftOpts ((bestWeakRows db rv mc).filter fun w => w.sample_id == e.sample_id)).map
          fun w => (⟨e.sample_id, e.vec, coalesceClass u w⟩ : TrainRow)).filter
    fun r => r.class_id.isSome)

/-- `load_training_rows`: the full query result for either branch of
`use_user_labels`. -/
def loadTrainingRows (db : DB) (m : String) (mc : ℚ) (rv : Int)
    (useUser : Bool) : List TrainRow :=
  (sortedEmbeddings db m).flatMap
    (if useUser then rowsOfEmbTrue db rv mc else rowsOfEmbFalse db rv mc)

/-- Little-endian reassembly of 4 bytes into one 32-bit word, as
`np.frombuffer(blob, dtype="<f4")` groups the raw bytes. -/
def bytesToWord32LE (b0 b1 b2 b3 : Nat) : Nat :=
  b0 + 256 * b1 + 65536 * b2 + 16777216 * b3

/-- Decode a byte list into 32-bit words, 4 bytes at a time (little
endian); a trailing fragment shorter than 4 bytes is dropped. -/
def decodeWords : List Nat → List Nat
  | b0 :: b1 :: b2 :: b3 :: rest => bytesToWord32LE b0 b1 b2 b3 :: decodeWords rest
  | _ => []

/-- The `class_set` comprehension of `build_arrays`: every truthy
`class_id` occurring in the rows (Python drops `None` and `""`). -/
def classSet (rows : List TrainRow) : List (List Char) :=
  (rows.filterMap fun r => r.class_id).filter fun c => c ≠ []

/-- The working class list of `build_arrays`: `class_order` filtered to
the classes present in the rows, preserving external order. -/
def workingClassIds (rows : List TrainRow) (classOrder : List (List Char)) : List (List Char) :=
  classOrder.filter fun c => c ∈ classSet rows

/-- Whether `build_arrays` keeps a row: its `class_id` must be a key of
`class_to_idx`, i.e. a member of the working class list. -/
def keptRow (classIds : List (List Char)) (r : TrainRow) : Bool :=
  match r.class_id with
  | some c => classIds.contains c
  | none => false

/-- The label index assigned by `class_to_idx`. -/
def labelIdx (classIds : List (List Char)) (r : TrainRow) : Nat :=
  classIds.indexOf (r.class_id.getD [])

/-- The `X`/`y` construction loop of `build_arrays`: one feature vector
and one label index appended per kept row, in row order. -/
def buildXY (rows : List TrainRow) (classIds : List (List Char)) :
    List (List Nat) × List Nat :=
  ((rows.filter (keptRow classIds)).map fun r => decodeWords r.vec,
   (rows.filter (keptRow classIds)).map (labelIdx classIds))

/-- A row of the `classifier_metrics` table.  `accuracy`, `coverage`,
`precision` and `threshold` are nullable. -/
structure MetricRow where
  head_id : String
  split : String
  accuracy : Option ℚ
  coverage : Option ℚ
  precision : Option ℚ
  threshold : Option ℚ
  created_at : Int
deriving DecidableEq

/-- SQL equality on a nullable column as used by a SQLite unique index:
NULL is distinct from every value, including NULL. -/
def sqlNullEq (a b : Option ℚ) : Bool :=
  match a, b with
  | some x, some y => x == y
  | _, _ => false

/-- Modelled from the spec: the `classifier_metrics` table schema (its
unique index on `(head_id, split, threshold)`) is declared outside this
repository's sources; per SQLite semantics an inserted row conflicts
with an existing one exactly when every indexed column compares equal
and non-NULL. -/
def metricConflict (r new : MetricRow) : Bool :=
  r.head_id == new.head_id && r.split == new.split &&
    sqlNullEq r.threshold new.threshold

/-- The `DO UPDATE SET` clause: replace the value columns of an existing
row with the excluded row's, keeping the key columns. -/
def valueUpdate (r new : MetricRow) : MetricRow :=
  { r with accuracy := new.accuracy, coverage := new.coverage,
           precision := new.precision, created_at := new.created_at }

/-- The `store_metrics` statement: `INSERT ... ON CONFLICT(head_id,
split, threshold) DO UPDATE SET accuracy/coverage/precision/created_at =
excluded.*`.  On conflict the existing row's value columns are replaced;
otherwise the row is appended. -/
def upsertMetric (table : List MetricRow) (new : MetricRow) : List MetricRow :=
  if table.any fun r => metricConflict r new then
    table.map fun r => if metricConflict r new then valueUpdate r new else r
  else table ++ [new]

/-- One committed transaction of `main`: the script calls `conn.commit()`
once inside `export_head` and once inside every `store_metrics` call, so
each write is its own transaction. -/
inductive Commit where
  | head (hid : String)
  | metric (hid split : String) (threshold : Option ℚ)
deriving DecidableEq

/-- The gating thresholds of `log_gating_metrics`. -/
def gatingThresholds : List ℚ := [2/100, 5/100, 1/10, 15/100, 2/10]

/-- The `(split, threshold)` keys of the 13 metric rows one run writes,
in write order: three accuracy rows with NULL threshold, then five
gating rows for `val` and five for `test`. -/
def metricKeyList : List (String × Option ℚ) :=
  [("train", none), ("val", none), ("test", none)] ++
    gatingThresholds.map (fun t => ("val", some t)) ++
    gatingThresholds.map (fun t => ("test", some t))

/-- The commit sequence `main` issues after training succeeds, lines
93-107 of the script: the head upsert of `export_head` followed by the
13 metric upserts, each committed separately. -/
def mainCommits (hid : String) : List Commit :=
  Commit.head hid :: metricKeyList.map fun p => Commit.metric hid p.1 p.2

/-- Durable store contents visible to a concurrent reader: which head
ids exist and which metric keys `(head_id, split, threshold)` exist. -/
structure StoreState where
  headIds : List String
  metricKeys : List (String × String × Option ℚ)
deriving DecidableEq

/-- Whether a new metric key conflicts (SQLite unique-index semantics)
with an existing key. -/
def keyConflict (r new : String × String × Option ℚ) : Bool :=
  r.1 == new.1 && r.2.1 == new.2.1 && sqlNullEq r.2.2 new.2.2

/-- Effect of one committed transaction on the durable store.  Both
statements are upserts: an update leaves the key set unchanged, an
insert appends the key. -/
def applyCommit (s : StoreState) : Commit → StoreState
  | Commit.head h =>
      if s.headIds.contains h then s else ⟨s.headIds ++ [h], s.metricKeys⟩
  | Commit.metric h sp t =>
      if s.metricKeys.any fun r => keyConflict r (h, sp, t) then s
      else ⟨s.headIds, s.metricKeys ++ [(h, sp, t)]⟩

/-- The store a reader observes after the first `k` commits of a run
that started from a store holding nothing for this run. -/
def stateAfter (hid : String) (k : Nat) : StoreState :=
  ((mainCommits hid).take k).foldl applyCommit ⟨[], []⟩

/-- The fatal errors of the pipeline stages up to the class-count guard. -/
inductive PipelineErr where
  | noTrainingData
  | noMatchingClasses
  | noEmbeddingsAfterFiltering
  | insufficientClasses
deriving DecidableEq

/-- `build_arrays` with its two internal fatal errors. -/
def buildArraysE (rows : List TrainRow) (classOrder : List (List Char)) :
    Except PipelineErr (List (List Nat) × List Nat × List (List Char)) :=
  let classIds := workingClassIds rows classOrder
  if classIds = [] then Except.error PipelineErr.noMatchingClasses
  else
    let xy := buildXY rows classIds
    if xy.1 = [] then Except.error PipelineErr.noEmbeddingsAfterFiltering
    else Except.ok (xy.1, xy.2, classIds)

/-- Number of distinct labels, `len(set(y))`. -/
def distinctCount (y : List Nat) : Nat := y.dedup.length

/-- The control flow of `main` up to the `len(set(y)) < 2` guard,
returning the list of store commits the run issues and the fatal error,
if any.  Everything after the guard (splitting, fitting, calibration,
evaluation and the resulting store commits) is abstracted as `rest`;
a fatal error aborts with no commit issued. -/
def runPipeline (db : DB) (m : String) (mc : ℚ) (rv : Int) (useUser : Bool)
    (classOrder : List (List Char)) (rest : List Commit) :
    List Commit × Option PipelineErr :=
  let rows := loadTrainingRows db m mc rv useUser
  if rows = [] then ([], some PipelineErr.noTrainingData)
  else
    match buildArraysE rows classOrder with
    | Except.error e => ([], some e)
    | Except.ok xyc =>
        if distinctCount xyc.2.1 < 2 then ([], some PipelineErr.insufficientClasses)
        else (rest, none)

/-- The linearly spaced exponents of `np.logspace(-1.3, 0.7, num=40)`:
`-1.3 + k * (0.7 - (-1.3)) / 39`. -/
def gridExp (k : Nat) : ℚ := -13/10 + (k : ℚ) * (2/39)

/-- The `k`-th candidate temperature of the fallback grid search. -/
noncomputable def gridPoint (k : Nat) : ℝ := (10 : ℝ) ^ ((gridExp k : ℚ) : ℝ)

/-- The 40 candidate temperatures of the fallback grid search. -/
noncomputable def gridTemps : List ℝ := (List.range 40).map gridPoint

/-- The fallback loop of `fit_temperature`: starting from
`best_t = 1.0, best_loss = nll(1.0)`, replace the best candidate on
strict improvement. -/
noncomputable def fallbackTemp (loss : ℝ → ℝ) : ℝ :=
  (gridTemps.foldl (fun p t => if loss t < p.2 then (t, loss t) else p)
    (1, loss 1)).1

/-- Outcome of the `scipy.optimize.minimize` call in `fit_temperature`:
the import or the call raises, or it returns a result with a success
flag and a minimiser. -/
inductive OptResult where
  | raises
  | returns (success : Bool) (x : ℝ)

/-- `fit_temperature` as a function of the validation NLL `loss` and the
optimizer outcome: on a successful result the minimiser is taken, on an
unsuccessful result the initial `best_t = 1.0` is kept (no grid search
runs), and only when the optimizer raises does the grid fallback run. -/
noncomputable def fitTemperature (loss : ℝ → ℝ) : OptResult → ℝ
  | OptResult.returns true x => x
  | OptResult.returns false _ => 1
  | OptResult.raises => fallbackTemp loss

/-- The per-row margin of `log_gating_metrics`: probabilities sorted
descending, `top1 - top2`, with `top2 = 0` when there is a single
column. -/
def rowMargin (ps : List ℚ) : ℚ :=
  match ps.insertionSort (fun a b => b ≤ a) with
  | [] => 0
  | [p] => p
  | p :: q :: _ => p - q

/-- The margins of a batch of probability rows. -/
def marginsOf (probs : List (List ℚ)) : List ℚ := probs.map rowMargin

/-- `coverage = float(covered.mean())`: the fraction of rows whose
margin is at least the threshold. -/
def coverage (ms : List ℚ) (t : ℚ) : ℚ :=
  ((ms.countP fun m => decide (t ≤ m)) : ℚ) / (ms.length : ℚ)

/-- Little-endian byte encoding of one 32-bit word, as
`np.float32.tobytes()` lays out one scalar. -/
def word32ToBytesLE (w : Nat) : List Nat :=
  [w % 256, w / 256 % 256, w / 65536 % 256, w / 16777216 % 256]

/-- `weights.reshape(-1).tobytes(order="C")`: rows concatenated in
class-major order, each word little endian. -/
def weightsBlob (W : List (List Nat)) : List Nat :=
  W.flatten.flatMap word32ToBytesLE

/-- `bias.tobytes(order="C")`. -/
def biasBlob (b : List Nat) : List Nat :=
  b.flatMap word32ToBytesLE

/-- Row-major reshape of a flat word list into rows of length `d`, as
the consumer reshapes the decoded blob to `(num_classes, dim)`. -/
def splitRows (d : Nat) (l : List Nat) : List (List Nat) :=
  if h : d = 0 ∨ l = [] then []
  else l.take d :: splitRows d (l.drop d)
termination_by l.length
decreasing_by
  simp only [not_or] at h
  have hd : 0 < d := Nat.pos_of_ne_zero h.1
  have hl : 0 < l.length := List.length_pos.mpr h.2
  simp only [List.length_drop]
  omega

/-! ### Coverage monotonicity (Evaluator) -/

lemma coverage_anti (ms : List ℚ) {t t' : ℚ} (h : t ≤ t') :
    coverage ms t' ≤ coverage ms t := by
  unfold coverage
  rcases ms with _ | ⟨a, l⟩
  · simp
  · have hlen : (0 : ℚ) < (((a :: l) : List ℚ).length : ℚ) := by
      exact_mod_cast Nat.succ_pos l.length
    rw [div_le_div_right hlen]
    have hmono :
        (a :: l).countP (fun m => decide (t' ≤ m)) ≤
          (a :: l).countP (fun m => decide (t ≤ m)) := by
      refine List.countP_mono_left fun x _ hx => ?_
      simp only [decide_eq_true_eq] at hx ⊢
      exact le_trans h hx
    exact_mod_cast hmono

/-! ### Blob encoding (Head Store) -/

lemma length_flatMap_bytes (l : List Nat) :
    (l.flatMap word32ToBytesLE).length = l.length * 4 := by
  induction l with
  | nil => rfl
  | cons a t ih =>
      simp only [List.flatMap_cons, List.length_append, ih, word32ToBytesLE,
        List.length_cons, List.length_nil]
      omega

lemma decodeWords_flatMap (l : List Nat) (h : ∀ w ∈ l, w < 4294967296) :
    decodeWords (l.flatMap word32ToBytesLE) = l := by
  induction l with
  | nil => rfl
  | cons a t ih =>
      have ha : a < 4294967296 := h a (List.mem_cons_self a t)
      have hrest := ih fun w hw => h w (List.mem_cons_of_mem a hw)
      show decodeWords (a % 256 :: a / 256 % 256 :: a / 65536 % 256 ::
        a / 16777216 % 256 :: t.flatMap word32ToBytesLE) = a :: t
      rw [decodeWords, hrest]
      congr 1
      unfold bytesToWord32LE
      omega

lemma splitRows_flatten (W : List (List Nat)) (D : Nat) (hD : 0 < D)
    (hrows : ∀ r ∈ W, r.length = D) : splitRows D W.flatten = W := by
  induction W with
  | nil => rw [splitRows]; simp
  | cons r t ih =>
      have hr : r.length = D := hrows r (List.mem_cons_self r t)
      have hrne : r ≠ [] := by
        intro hcontra; rw [hcontra] at hr; simp at hr; omega
      rw [List.flatten_cons, splitRows, dif_neg]
      · have htake : (r ++ t.flatten).take D = r := by
          rw [← hr]; exact List.take_left r t.flatten
        have hdrop : (r ++ t.flatten).drop D = t.flatten := by
          rw [← hr]; exact List.drop_left r t.flatten
        rw [htake, hdrop, ih fun x hx => hrows x (List.mem_cons_of_mem r hx)]
      · push_neg
        refine ⟨by omega, ?_⟩
        intro hcontra
        exact hrne (List.append_eq_nil.mp hcontra).1

/-! ### Metric upsert (Head Store) -/

lemma keyP_update (hd sp : String) (t : ℚ) (r new : MetricRow) :
    ((valueUpdate r new).head_id == hd && (valueUpdate r new).split == sp &&
      (valueUpdate r new).threshold == some t)
    = (r.head_id == hd && r.split == sp && r.threshold == some t) := rfl

lemma upsertMetric_count_le_one (table : List MetricRow) (new : MetricRow)
    (hd sp : String) (t : ℚ)
    (hinv : (table.countP fun r =>
      r.head_id == hd && r.split == sp && r.threshold == some t) ≤ 1) :
    ((upsertMetric table new).countP fun r =>
      r.head_id == hd && r.split == sp && r.threshold == some t) ≤ 1 := by
  unfold upsertMetric
  by_cases hc : table.any fun r => metricConflict r new
  · rw [if_pos hc, List.countP_map]
    refine le_trans (le_of_eq (List.countP_congr fun r _ => ?_)) hinv
    by_cases hr : metricConflict r new
    · simp only [hr, if_pos, Function.comp_apply]
      exact keyP_update hd sp t r new ▸ Iff.rfl
    · simp [hr]
  · rw [if_neg hc, List.countP_append]
    by_cases hnew : (new.head_id == hd && new.split == sp && new.threshold == some t) = true
    · have hzero : (table.countP fun r =>
          r.head_id == hd && r.split == sp && r.threshold == some t) = 0 := by
        rw [List.countP_eq_zero]
        intro r hr hkey
        simp only [Bool.and_eq_true, beq_iff_eq] at hkey hnew
        have : metricConflict r new = true := by
          simp only [metricConflict, sqlNullEq, Bool.and_eq_true, beq_iff_eq]
          rw [hkey.1.1, hkey.1.2, hkey.2, hnew.2]
          simp [hnew.1.1, hnew.1.2]
        exact (List.any_eq_true.not.mp hc) ⟨r, hr, this⟩
      simp [hzero, hnew]
    · simp only [Bool.not_eq_true] at hnew
      simp [hnew]
      exact hinv

lemma foldl_upsertMetric_count (ops : List MetricRow) (table : List MetricRow)
    (hd sp : String) (t : ℚ)
    (hinv : (table.countP fun r =>
      r.head_id == hd && r.split == sp && r.threshold == some t) ≤ 1) :
    ((ops.foldl upsertMetric table).countP fun r =>
      r.head_id == hd && r.split == sp && r.threshold == some t) ≤ 1 := by
  induction ops generalizing table with
  | nil => exact hinv
  | cons new rest ih =>
      exact ih (upsertMetric table new) (upsertMetric_count_le_one table new hd sp t hinv)

/-- C7: for every batch of per-sample probability rows, the coverage
values `log_gating_metrics` computes (fraction of rows whose
top1 - top2 margin is at least the threshold) are non-increasing along
the threshold sequence 0.02, 0.05, 0.10, 0.15, 0.20. -/
theorem gating_coverage_monotone (probs : List (List ℚ)) :
    List.Chain' (fun a b => b ≤ a)
      (gatingThresholds.map (coverage (marginsOf probs))) := by
  simp only [gatingThresholds, List.map_cons, List.map_nil, List.chain'_cons,
    List.chain'_singleton, and_true]
  refine ⟨?_, ?_, ?_, ?_⟩ <;> exact coverage_anti _ (by norm_num)

/-- C8: the weights blob of `export_head` is exactly
`num_classes * dim * 4` bytes, the bias blob exactly `num_classes * 4`
bytes, both little-endian 32-bit words in row-major (class-major) order,
and decoding the blobs (grouping bytes back into words and reshaping
row-major) reproduces the weight matrix and bias vector bit-identically. -/
theorem export_head_blob_roundtrip (W : List (List Nat)) (b : List Nat)
    (C D : Nat) (hC : W.length = C) (hD : 0 < D)
    (hrows : ∀ r ∈ W, r.length = D)
    (hWw : ∀ w ∈ W.flatten, w < 4294967296)
    (hb : b.length = C) (hbw : ∀ w ∈ b, w < 4294967296) :
    (weightsBlob W).length = C * D * 4 ∧
    (biasBlob b).length = C * 4 ∧
    splitRows D (decodeWords (weightsBlob W)) = W ∧
    decodeWords (biasBlob b) = b := by
  have hflat : W.flatten.length = C * D := by
    rw [List.length_flatten]
    have : W.map List.length = List.replicate C D := by
      rw [List.eq_replicate_iff]
      refine ⟨by simp [hC], ?_⟩
      intro x hx
      obtain ⟨r, hr, rfl⟩ := List.mem_map.mp hx
      exact hrows r hr
    rw [this, List.sum_replicate, smul_eq_mul]
  refine ⟨?_, ?_, ?_, ?_⟩
  · rw [weightsBlob, length_flatMap_bytes, hflat]
  · rw [biasBlob, length_flatMap_bytes, hb]
  · rw [weightsBlob, decodeWords_flatMap W.flatten hWw]
    exact splitRows_flatten W D hD hrows
  · exact decodeWords_flatMap b hbw

/-- Witness for C8 at a concrete 2-by-2 weight matrix and bias. -/
theorem export_head_blob_roundtrip_witness :
    splitRows 2 (decodeWords (weightsBlob [[1, 4294967295], [3, 4]]))
      = [[1, 4294967295], [3, 4]] ∧
    decodeWords (biasBlob [5, 6]) = [5, 6] := by
  have h := export_head_blob_roundtrip [[1, 4294967295], [3, 4]] [5, 6] 2 2
    (by decide) (by decide) (by decide) (by decide) (by decide) (by decide)
  exact ⟨h.2.2.1, h.2.2.2⟩

/-- C2 fails as stated: the metric upsert's conflict target
`(head_id, split, threshold)` contains the nullable `threshold` column,
and a SQLite unique index never treats two NULLs as equal, so writing
the per-split accuracy row (threshold NULL) twice inserts a second row
with the same `(head_id, split, NULL)` key instead of updating. -/
theorem store_metrics_upsert_counterexample :
    ((upsertMetric (upsertMetric []
        ⟨"h", "train", some (9/10), none, none, none, 0⟩)
        ⟨"h", "train", some (9/10), none, none, none, 0⟩).countP fun r =>
      r.head_id == "h" && r.split == "train" &&
        r.threshold == (none : Option ℚ)) = 2 := by decide

/-- C2 amended: the upsert is idempotent on every key that carries a
threshold value — after any sequence of `store_metrics` writes, at most
one row exists per `(head_id, split, threshold)` key with non-NULL
threshold.  The per-split accuracy rows carry a NULL threshold, never
conflict under SQLite unique-index semantics, and therefore accumulate
one duplicate per repeated write. -/
theorem store_metrics_upsert_idempotent_keyed (ops : List MetricRow)
    (hd sp : String) (t : ℚ) :
    ((ops.foldl upsertMetric []).countP fun r =>
      r.head_id == hd && r.split == sp && r.threshold == some t) ≤ 1 :=
  foldl_upsertMetric_count ops [] hd sp t (by simp)

/-! ### Commit-by-commit visibility (Head Store) -/

/-- Conflict between two metric keys of the same head, with the shared
`head_id` stripped. -/
def keyFresh (a b : String × Option ℚ) : Bool :=
  a.1 == b.1 && sqlNullEq a.2 b.2

lemma keyConflict_tag (hid : String) (a b : String × Option ℚ) :
    keyConflict (hid, a.1, a.2) (hid, b.1, b.2) = keyFresh a b := by
  simp [keyConflict, keyFresh]

lemma pairwise_metricKeyList :
    List.Pairwise (fun a b => keyFresh a b = false) metricKeyList := by
  norm_num [metricKeyList, gatingThresholds, List.pairwise_cons, keyFresh,
    sqlNullEq]
  decide

lemma foldl_metric_commits (hid : String) (keys : List (String × Option ℚ))
    (s : StoreState)
    (hfresh : List.Pairwise (fun a b => keyFresh a b = false) keys)
    (hs : ∀ kk ∈ keys, ∀ r ∈ s.metricKeys,
      keyConflict r (hid, kk.1, kk.2) = false) :
    (keys.map fun p => Commit.metric hid p.1 p.2).foldl applyCommit s
      = ⟨s.headIds, s.metricKeys ++ keys.map fun p => (hid, p.1, p.2)⟩ := by
  induction keys generalizing s with
  | nil => simp
  | cons kk rest ih =>
      obtain ⟨hkk, hrest⟩ := List.pairwise_cons.mp hfresh
      simp only [List.map_cons, List.foldl_cons]
      have hnc : (s.metricKeys.any fun r => keyConflict r (hid, kk.1, kk.2))
          = false := by
        rw [List.any_eq_false]
        intro r hr
        simp [hs kk (List.mem_cons_self kk rest) r hr]
      have hstep : applyCommit s (Commit.metric hid kk.1 kk.2)
          = ⟨s.headIds, s.metricKeys ++ [(hid, kk.1, kk.2)]⟩ := by
        simp [applyCommit, hnc]
      rw [hstep, ih ⟨s.headIds, s.metricKeys ++ [(hid, kk.1, kk.2)]⟩ hrest ?_]
      · simp
      · intro b hb r hr
        rcases List.mem_append.mp hr with hold | hnew
        · exact hs b (List.mem_cons_of_mem kk hb) r hold
        · have : r = (hid, kk.1, kk.2) := by simpa using hnew
          rw [this, keyConflict_tag]
          exact hkk b hb

lemma stateAfter_succ_eq (hid : String) (k : Nat) :
    stateAfter hid (k + 1) =
      ⟨[hid], (metricKeyList.take k).map fun p => (hid, p.1, p.2)⟩ := by
  unfold stateAfter mainCommits
  rw [List.take_succ_cons, ← List.map_take, List.foldl_cons]
  have hhead : applyCommit ⟨[], []⟩ (Commit.head hid) = ⟨[hid], []⟩ := rfl
  rw [hhead, foldl_metric_commits hid (metricKeyList.take k) ⟨[hid], []⟩
    (pairwise_metricKeyList.sublist (List.take_sublist k metricKeyList))
    (by intro kk _ r hr; simp at hr)]
  simp

/-- C1 fails as stated: after the first of the run's 14 commits (the
head upsert committed inside `export_head`), a reader observes the head
row with no metric rows — a store state that is neither empty nor the
complete head-plus-metrics set. -/
theorem head_store_atomicity_counterexample :
    ¬(stateAfter "h" 1 = ⟨[], []⟩ ∨ stateAfter "h" 1 = stateAfter "h" 14) := by
  rw [show (14 : Nat) = 13 + 1 from rfl, show (1 : Nat) = 0 + 1 from rfl,
    stateAfter_succ_eq, stateAfter_succ_eq]
  simp [metricKeyList, gatingThresholds]

/-- C1 amended: each individual store write is committed in its own
transaction (`conn.commit()` inside `export_head` and inside every
`store_metrics` call), so the run issues 14 separate commits.  After
`k + 1` commits a reader observes exactly the head row plus the first
`k` metric rows; in particular after the head commit and before the
last metric commit a head row is visible without its full metric set,
and only aborting before the first commit leaves nothing. -/
theorem head_store_commit_prefixes (hid : String) (k : Nat) :
    stateAfter hid 0 = ⟨[], []⟩ ∧
    stateAfter hid (k + 1) =
      ⟨[hid], (metricKeyList.take k).map fun p => (hid, p.1, p.2)⟩ :=
  ⟨rfl, stateAfter_succ_eq hid k⟩

/-! ### Best-weak-label selection (Label Resolver) -/

lemma weakBetter_eq_true_iff (a b : WeakLabel) :
    weakBetter a b = true ↔
      b.confidence < a.confidence ∨
        (a.confidence = b.confidence ∧ a.class_id < b.class_id) := by
  simp [weakBetter, Bool.or_eq_true, Bool.and_eq_true, decide_eq_true_eq,
    beq_iff_eq]

lemma weakBetter_eq_false_iff (a b : WeakLabel) :
    weakBetter a b = false ↔
      a.confidence ≤ b.confidence ∧
        (a.confidence = b.confidence → b.class_id ≤ a.class_id) := by
  rw [← Bool.not_eq_true, weakBetter_eq_true_iff]
  constructor
  · intro h
    push_neg at h
    exact h
  · rintro ⟨h1, h2⟩ (hlt | ⟨he, hcl⟩)
    · exact absurd h1 (not_le.mpr hlt)
    · exact absurd hcl (not_lt.mpr (h2 he))

lemma weakBetter_irrefl (a : WeakLabel) : weakBetter a a = false := by
  simp [weakBetter, lt_irrefl]

lemma weakBetter_trans {a b c : WeakLabel} (hab : weakBetter a b = true)
    (hbc : weakBetter b c = true) : weakBetter a c = true := by
  rw [weakBetter_eq_true_iff] at hab hbc ⊢
  rcases hab with h1 | ⟨h1, h1c⟩ <;> rcases hbc with h2 | ⟨h2, h2c⟩
  · exact Or.inl (lt_trans h2 h1)
  · exact Or.inl (h2 ▸ h1)
  · refine Or.inl ?_; rw [h1]; exact h2
  · exact Or.inr ⟨h1.trans h2, lt_trans h1c h2c⟩

lemma weakBetter_not_trans {a b c : WeakLabel} (hab : weakBetter a b = false)
    (hbc : weakBetter b c = false) : weakBetter a c = false := by
  rw [weakBetter_eq_false_iff] at hab hbc ⊢
  obtain ⟨h1, h1c⟩ := hab
  obtain ⟨h2, h2c⟩ := hbc
  refine ⟨h1.trans h2, fun he => ?_⟩
  have hab' : a.confidence = b.confidence := le_antisymm h1 (h2.trans he.ge)
  have hbc' : b.confidence = c.confidence := by rw [← hab', he]
  exact (h2c hbc').trans (h1c hab')

lemma topPick_foldl (t : List WeakLabel) : ∀ b : WeakLabel,
    (t.foldl (fun best x => if weakBetter x best then x else best) b = b ∨
      t.foldl (fun best x => if weakBetter x best then x else best) b ∈ t) ∧
    weakBetter b (t.foldl (fun best x => if weakBetter x best then x else best) b) = false ∧
    ∀ x ∈ t,
      weakBetter x (t.foldl (fun best x => if weakBetter x best then x else best) b) = false := by
  induction t with
  | nil => exact fun b => ⟨Or.inl rfl, weakBetter_irrefl b, by simp⟩
  | cons a t ih =>
      intro b
      simp only [List.foldl_cons]
      cases hab : weakBetter a b with
      | true =>
          simp only [hab, if_true]
          obtain ⟨hmem, hba, hall⟩ := ih a
          refine ⟨?_, ?_, ?_⟩
          · rcases hmem with h | h
            · exact Or.inr (by rw [h]; exact List.mem_cons_self a t)
            · exact Or.inr (List.mem_cons_of_mem a h)
          · cases hbr : weakBetter b
              (t.foldl (fun best x => if weakBetter x best then x else best) a) with
            | false => rfl
            | true => rw [weakBetter_trans hab hbr] at hba; exact hba
          · intro x hx
            rcases List.mem_cons.mp hx with rfl | hxt
            · exact hba
            · exact hall x hxt
      | false =>
          rw [if_neg (by simp [hab])]
          obtain ⟨hmem, hbb, hall⟩ := ih b
          refine ⟨?_, hbb, ?_⟩
          · rcases hmem with h | h
            · exact Or.inl h
            · exact Or.inr (List.mem_cons_of_mem a h)
          · intro x hx
            rcases List.mem_cons.mp hx with rfl | hxt
            · exact weakBetter_not_trans hab hbb
            · exact hall x hxt

lemma topPick_spec (cands : List WeakLabel) (w : WeakLabel)
    (h : topPick cands = some w) :
    w ∈ cands ∧ ∀ x ∈ cands, weakBetter x w = false := by
  cases cands with
  | nil => simp [topPick] at h
  | cons a t =>
      simp only [topPick, Option.some.injEq] at h
      obtain ⟨hmem, hba, hall⟩ := topPick_foldl t a
      rw [h] at hmem hba hall
      constructor
      · rcases hmem with heq | hin
        · exact heq ▸ List.mem_cons_self a t
        · exact List.mem_cons_of_mem a hin
      · intro x hx
        rcases List.mem_cons.mp hx with rfl | hxt
        · exact hba
        · exact hall x hxt

/-- C4: whenever the `best_weak` subquery selects a class `c` for a
sample, some qualifying weak label (matching ruleset version, confidence
at least the threshold) carries `c`, its confidence is maximal among all
qualifying labels, and `c` is the lexicographically smallest `class_id`
among the qualifying labels attaining that maximal confidence.  The
selection is a pure function of the inputs, hence deterministic across
runs. -/
theorem label_resolver_max_tiebreak (db : DB) (rv : Int) (mc : ℚ) (s : Nat)
    (c : List Char) (h : topClass (qualifying db rv mc s) = some c) :
    ∃ w ∈ qualifying db rv mc s, w.class_id = c ∧
      (∀ x ∈ qualifying db rv mc s, x.confidence ≤ w.confidence) ∧
      (∀ x ∈ qualifying db rv mc s, x.confidence = w.confidence →
        c ≤ x.class_id) := by
  unfold topClass at h
  obtain ⟨w, hw, hwc⟩ := Option.map_eq_some'.mp h
  obtain ⟨hmem, hbest⟩ := topPick_spec _ w hw
  refine ⟨w, hmem, hwc, fun x hx => ?_, fun x hx he => ?_⟩
  · exact ((weakBetter_eq_false_iff x w).mp (hbest x hx)).1
  · rw [← hwc]
    exact ((weakBetter_eq_false_iff x w).mp (hbest x hx)).2 he

/-- Witness for C4 on a concrete database: two weak labels of sample 1
tie at confidence 9/10, and the lexicographically smaller class "a" is
selected. -/
theorem label_resolver_max_tiebreak_witness :
    topClass (qualifying
      (DB.mk [⟨1, ['b'], mkRat 9 10, 0, 1⟩, ⟨1, ['a'], mkRat 9 10, 1, 1⟩,
        ⟨1, ['c'], mkRat 1 2, 2, 1⟩] [] []) 1 (mkRat 85 100) 1) = some ['a'] ∧
    ∃ w ∈ qualifying
      (DB.mk [⟨1, ['b'], mkRat 9 10, 0, 1⟩, ⟨1, ['a'], mkRat 9 10, 1, 1⟩,
        ⟨1, ['c'], mkRat 1 2, 2, 1⟩] [] []) 1 (mkRat 85 100) 1,
      w.class_id = ['a'] ∧
      (∀ x ∈ qualifying
        (DB.mk [⟨1, ['b'], mkRat 9 10, 0, 1⟩, ⟨1, ['a'], mkRat 9 10, 1, 1⟩,
          ⟨1, ['c'], mkRat 1 2, 2, 1⟩] [] []) 1 (mkRat 85 100) 1,
        x.confidence ≤ w.confidence) ∧
      (∀ x ∈ qualifying
        (DB.mk [⟨1, ['b'], mkRat 9 10, 0, 1⟩, ⟨1, ['a'], mkRat 9 10, 1, 1⟩,
          ⟨1, ['c'], mkRat 1 2, 2, 1⟩] [] []) 1 (mkRat 85 100) 1,
        x.confidence = w.confidence → ['a'] ≤ x.class_id) :=
  ⟨by decide, label_resolver_max_tiebreak _ 1 (mkRat 85 100) 1 ['a'] (by decide)⟩

/-! ### Row-level facts about the training query -/

lemma exists_mem_leftOpts {α : Type} (l : List α) : ∃ x, x ∈ leftOpts l := by
  cases l with
  | nil => exact ⟨none, by simp [leftOpts]⟩
  | cons a t => exact ⟨some a, by simp [leftOpts]⟩

lemma rowsOfEmbTrue_shape (db : DB) (rv : Int) (mc : ℚ) (e : Embedding) :
    ∀ r ∈ rowsOfEmbTrue db rv mc e, r.sample_id = e.sample_id ∧
      ∃ u ∈ leftOpts (db.labels_user.filter fun x => x.sample_id == e.sample_id),
        ∃ w ∈ leftOpts ((bestWeakRows db rv mc).filter fun w =>
          w.sample_id == e.sample_id), r.class_id = coalesceClass u w := by
  intro r hr
  unfold rowsOfEmbTrue at hr
  obtain ⟨hr', _⟩ := List.mem_filter.mp hr
  obtain ⟨u, hu, hr''⟩ := List.mem_flatMap.mp hr'
  obtain ⟨w, hw, rfl⟩ := List.mem_map.mp hr''
  exact ⟨rfl, u, hu, w, hw, rfl⟩

lemma rowsOfEmbFalse_shape (db : DB) (rv : Int) (mc : ℚ) (e : Embedding) :
    ∀ r ∈ rowsOfEmbFalse db rv mc e, r.sample_id = e.sample_id ∧
      ∃ w ∈ bestWeakRows db rv mc, w.sample_id = e.sample_id ∧
        r.class_id = some w.class_id := by
  intro r hr
  unfold rowsOfEmbFalse at hr
  obtain ⟨w, hw, rfl⟩ := List.mem_map.mp hr
  obtain ⟨hwb, hws⟩ := List.mem_filter.mp hw
  exact ⟨rfl, w, hwb, by simpa using hws, rfl⟩

lemma load_true_user_class (db : DB) (m : String) (mc : ℚ) (rv : Int)
    (s : Nat) (u : UserLabel)
    (hu : db.labels_user.filter (fun x => x.sample_id == s) = [u]) :
    ∀ r ∈ loadTrainingRows db m mc rv true, r.sample_id = s →
      r.class_id = some u.class_id := by
  intro r hr hs
  simp only [loadTrainingRows, if_true] at hr
  obtain ⟨e, _, hre⟩ := List.mem_flatMap.mp hr
  obtain ⟨hse, u', hu', w', _, hclass⟩ := rowsOfEmbTrue_shape db rv mc e r hre
  have hes : e.sample_id = s := hse ▸ hs
  rw [hes, hu] at hu'
  have hu'' : u' = some u := by simpa [leftOpts] using hu'
  rw [hclass, hu'']
  rfl

lemma mem_sortedEmbeddings (db : DB) (m : String) (e : Embedding)
    (he : e ∈ db.embeddings) (hm : e.model_id = m) :
    e ∈ sortedEmbeddings db m := by
  unfold sortedEmbeddings
  rw [(List.perm_insertionSort embLE _).mem_iff]
  exact List.mem_filter.mpr ⟨he, by simp [hm]⟩

lemma load_true_sample_pos (db : DB) (m : String) (mc : ℚ) (rv : Int)
    (s : Nat) (u : UserLabel) (e : Embedding)
    (he : e ∈ db.embeddings) (hm : e.model_id = m) (hs : e.sample_id = s)
    (hu : db.labels_user.filter (fun x => x.sample_id == s) = [u]) :
    0 < (loadTrainingRows db m mc rv true).countP fun r => r.sample_id == s := by
  rw [List.countP_pos_iff]
  obtain ⟨w', hw'⟩ := exists_mem_leftOpts
    ((bestWeakRows db rv mc).filter fun w => w.sample_id == e.sample_id)
  refine ⟨⟨e.sample_id, e.vec, coalesceClass (some u) w'⟩, ?_, by simp [hs]⟩
  simp only [loadTrainingRows, if_true]
  refine List.mem_flatMap.mpr ⟨e, mem_sortedEmbeddings db m e he hm, ?_⟩
  unfold rowsOfEmbTrue
  refine List.mem_filter.mpr ⟨?_, by simp [coalesceClass]⟩
  refine List.mem_flatMap.mpr ⟨some u, ?_, ?_⟩
  · rw [hs, hu]
    simp [leftOpts]
  · exact List.mem_map.mpr ⟨w', hw', rfl⟩

/-- C5: with user labels enabled, when a sample has a user label and at
least one qualifying weak label (and an embedding under the target
model), the sample contributes rows to the training query and every one
of its rows resolves to the user label's class: the weak label never
wins. -/
theorem user_label_overrides (db : DB) (m : String) (mc : ℚ) (rv : Int)
    (s : Nat) (u : UserLabel) (c : List Char) (e : Embedding)
    (hu : db.labels_user.filter (fun x => x.sample_id == s) = [u])
    (hweak : topClass (qualifying db rv mc s) = some c)
    (he : e ∈ db.embeddings) (hm : e.model_id = m) (hs : e.sample_id = s) :
    (0 < (loadTrainingRows db m mc rv true).countP fun r => r.sample_id == s) ∧
    ∀ r ∈ loadTrainingRows db m mc rv true, r.sample_id = s →
      r.class_id = some u.class_id :=
  ⟨load_true_sample_pos db m mc rv s u e he hm hs hu,
   load_true_user_class db m mc rv s u hu⟩

/-- Witness for C5: sample 1 has user label `u` and a qualifying weak
label `w`; every row of the query resolves to `u`. -/
theorem user_label_overrides_witness :
    ((DB.mk [⟨1, ['w'], mkRat 9 10, 0, 1⟩] [⟨1, ['u']⟩]
        [⟨1, "m", [0, 0, 0, 0]⟩]).labels_user.filter
      (fun x => x.sample_id == 1) = [⟨1, ['u']⟩] ∧
     topClass (qualifying (DB.mk [⟨1, ['w'], mkRat 9 10, 0, 1⟩] [⟨1, ['u']⟩]
        [⟨1, "m", [0, 0, 0, 0]⟩]) 1 (mkRat 85 100) 1) = some ['w']) ∧
    (0 < (loadTrainingRows (DB.mk [⟨1, ['w'], mkRat 9 10, 0, 1⟩] [⟨1, ['u']⟩]
        [⟨1, "m", [0, 0, 0, 0]⟩]) "m" (mkRat 85 100) 1 true).countP
      fun r => r.sample_id == 1) ∧
    ∀ r ∈ loadTrainingRows (DB.mk [⟨1, ['w'], mkRat 9 10, 0, 1⟩] [⟨1, ['u']⟩]
        [⟨1, "m", [0, 0, 0, 0]⟩]) "m" (mkRat 85 100) 1 true,
      r.sample_id = 1 → r.class_id = some ['u'] :=
  ⟨⟨by decide, by decide⟩,
   user_label_overrides (DB.mk [⟨1, ['w'], mkRat 9 10, 0, 1⟩] [⟨1, ['u']⟩]
      [⟨1, "m", [0, 0, 0, 0]⟩]) "m" (mkRat 85 100) 1 1 ⟨1, ['u']⟩ ['w']
      ⟨1, "m", [0, 0, 0, 0]⟩ (by decide) (by decide) (by decide) rfl rfl⟩

/-! ### Row multiplicity (Dataset Builder) -/

lemma countP_flatMap_eq_sum {α β : Type} (l : List α) (f : α → List β)
    (p : β → Bool) :
    ((l.flatMap f).countP p) = (l.map fun a => (f a).countP p).sum := by
  induction l with
  | nil => rfl
  | cons a t ih => simp [List.flatMap_cons, List.countP_append, ih]

lemma sum_map_ite {α : Type} (l : List α) (q : α → Bool) (K : Nat) :
    (l.map fun a => if q a then K else 0).sum = l.countP q * K := by
  induction l with
  | nil => simp
  | cons a t ih =>
      cases hq : q a <;> simp [List.countP_cons, hq, ih] <;> ring

lemma rowsOfEmbFalse_count (db : DB) (rv : Int) (mc : ℚ) (e : Embedding)
    (s : Nat) :
    ((rowsOfEmbFalse db rv mc e).countP fun r => r.sample_id == s)
      = if e.sample_id == s
          then ((bestWeakRows db rv mc).filter fun w => w.sample_id == s).length
          else 0 := by
  unfold rowsOfEmbFalse
  rw [List.countP_map]
  cases he : e.sample_id == s with
  | true =>
      have hes : e.sample_id = s := by simpa using he
      simp [Function.comp_def, he, hes]
  | false =>
      simp [Function.comp_def, he]

lemma load_false_count (db : DB) (m : String) (mc : ℚ) (rv : Int) (s : Nat) :
    ((loadTrainingRows db m mc rv false).countP fun r => r.sample_id == s)
      = (db.embeddings.filter fun e => e.model_id == m && e.sample_id == s).length
        * ((bestWeakRows db rv mc).filter fun w => w.sample_id == s).length := by
  simp only [loadTrainingRows, if_false, Bool.false_eq_true]
  rw [countP_flatMap_eq_sum]
  have hmap : (sortedEmbeddings db m).map
      (fun e => (rowsOfEmbFalse db rv mc e).countP fun r => r.sample_id == s)
      = (sortedEmbeddings db m).map fun e => if e.sample_id == s
          then ((bestWeakRows db rv mc).filter fun w => w.sample_id == s).length
          else 0 :=
    List.map_congr_left fun e _ => rowsOfEmbFalse_count db rv mc e s
  rw [hmap, sum_map_ite]
  congr 1
  unfold sortedEmbeddings
  rw [(List.perm_insertionSort embLE _).countP_eq, List.countP_filter,
    List.countP_eq_length_filter]
  congr 1
  exact List.filter_congr fun e _ => Bool.and_comm _ _

lemma bestWeakRows_class (db : DB) (rv : Int) (mc : ℚ) (w : WeakLabel)
    (hw : w ∈ bestWeakRows db rv mc) :
    topClass (qualifying db rv mc w.sample_id) = some w.class_id := by
  unfold bestWeakRows at hw
  obtain ⟨_, hcond⟩ := List.mem_filter.mp hw
  simp only [Bool.and_eq_true, beq_iff_eq] at hcond
  exact hcond.2

lemma load_false_class (db : DB) (m : String) (mc : ℚ) (rv : Int)
    (s : Nat) (c : List Char)
    (htop : topClass (qualifying db rv mc s) = some c) :
    ∀ r ∈ loadTrainingRows db m mc rv false, r.sample_id = s →
      r.class_id = some c := by
  intro r hr hs
  simp only [loadTrainingRows, if_false, Bool.false_eq_true] at hr
  obtain ⟨e, _, hre⟩ := List.mem_flatMap.mp hr
  obtain ⟨hse, w, hwb, hws, hclass⟩ := rowsOfEmbFalse_shape db rv mc e r hre
  have hwss : w.sample_id = s := by rw [hws, ← hse, hs]
  have := bestWeakRows_class db rv mc w hwb
  rw [hwss, htop] at this
  rw [hclass, ← Option.some_inj.mp this]

/-- C9: with user labels disabled, a sample whose embedding matches the
model and that has `k` qualifying weak-label rows carrying its best
class contributes `k` rows to the query result — all resolving to the
best class — and each kept row becomes exactly one entry of `X`/`y`, so
the sample's embedding and label enter the dataset `k` times, not once. -/
theorem weak_duplicate_rows (db : DB) (m : String) (mc : ℚ) (rv : Int)
    (s k : Nat) (c : List Char)
    (hemb : (db.embeddings.filter fun e =>
      e.model_id == m && e.sample_id == s).length = 1)
    (hk : ((bestWeakRows db rv mc).filter fun w => w.sample_id == s).length = k)
    (htop : topClass (qualifying db rv mc s) = some c) :
    ((loadTrainingRows db m mc rv false).countP fun r => r.sample_id == s) = k ∧
    (∀ r ∈ loadTrainingRows db m mc rv false, r.sample_id = s →
      r.class_id = some c) ∧
    ∀ classIds : List (List Char), c ∈ classIds →
      (((loadTrainingRows db m mc rv false).countP fun r =>
          r.sample_id == s && keptRow classIds r) = k ∧
       (buildXY (loadTrainingRows db m mc rv false) classIds).2.length
          = (loadTrainingRows db m mc rv false).countP (keptRow classIds)) := by
  have hcount := load_false_count db m mc rv s
  rw [hemb, hk, one_mul] at hcount
  have hclassed := load_false_class db m mc rv s c htop
  refine ⟨hcount, hclassed, fun classIds hc => ⟨?_, ?_⟩⟩
  · rw [← hcount]
    refine List.countP_congr fun r hr => ?_
    cases hrs : r.sample_id == s with
    | false => simp
    | true =>
        have hcls : r.class_id = some c := hclassed r hr (by simpa using hrs)
        simp only [Bool.true_and, keptRow, hcls]
        simpa using hc
  · simp [buildXY, List.countP_eq_length_filter]

/-- Witness for C9: sample 1 carries two qualifying weak rows (two
rules, confidences 9/10 and 88/100) both labelling class `a`; it enters
the dataset twice. -/
theorem weak_duplicate_rows_witness :
    ((DB.mk [⟨1, ['a'], mkRat 9 10, 0, 1⟩, ⟨1, ['a'], mkRat 88 100, 1, 1⟩] []
        [⟨1, "m", [0, 0, 0, 0]⟩]).embeddings.filter fun e =>
      e.model_id == "m" && e.sample_id == 1).length = 1 ∧
    ((loadTrainingRows (DB.mk [⟨1, ['a'], mkRat 9 10, 0, 1⟩,
        ⟨1, ['a'], mkRat 88 100, 1, 1⟩] [] [⟨1, "m", [0, 0, 0, 0]⟩])
      "m" (mkRat 85 100) 1 false).countP fun r => r.sample_id == 1) = 2 := by
  have h := weak_duplicate_rows (DB.mk [⟨1, ['a'], mkRat 9 10, 0, 1⟩,
      ⟨1, ['a'], mkRat 88 100, 1, 1⟩] [] [⟨1, "m", [0, 0, 0, 0]⟩])
    "m" (mkRat 85 100) 1 1 2 ['a'] (by decide) (by decide) (by decide)
  exact ⟨by decide, h.1⟩

/-- C10: with user labels enabled, a sample whose user label names a
class outside the working class set (`ClassOrder` filtered to present
classes) is dropped from the dataset entirely: all its query rows carry
the user class (`COALESCE` never falls back to the weak label when a
user label exists), so `build_arrays` skips every one of them — even
though the sample has a qualifying weak label whose class is in the
working set. -/
theorem user_label_out_of_class_set_drops (db : DB) (m : String) (mc : ℚ)
    (rv : Int) (s : Nat) (u : UserLabel) (c : List Char) (e : Embedding)
    (classOrder : List (List Char))
    (hu : db.labels_user.filter (fun x => x.sample_id == s) = [u])
    (he : e ∈ db.embeddings) (hm : e.model_id = m) (hs : e.sample_id = s)
    (hweak : topClass (qualifying db rv mc s) = some c)
    (hcin : c ∈ workingClassIds (loadTrainingRows db m mc rv true) classOrder)
    (hnot : u.class_id ∉
      workingClassIds (loadTrainingRows db m mc rv true) classOrder) :
    (0 < (loadTrainingRows db m mc rv true).countP
      fun r => r.sample_id == s) ∧
    ((loadTrainingRows db m mc rv true).countP fun r =>
      r.sample_id == s &&
        keptRow (workingClassIds (loadTrainingRows db m mc rv true)
          classOrder) r) = 0 := by
  refine ⟨load_true_sample_pos db m mc rv s u e he hm hs hu, ?_⟩
  rw [List.countP_eq_zero]
  intro r hr hb
  rw [Bool.and_eq_true] at hb
  have hsample : r.sample_id = s := by simpa using hb.1
  have hcls : r.class_id = some u.class_id :=
    load_true_user_class db m mc rv s u hu r hr hsample
  have hkept := hb.2
  simp only [keptRow, hcls] at hkept
  exact hnot (by simpa using hkept)

/-- Witness for C10: sample 1 has user label `x` (not in
`class_order = [a]`) and a qualifying weak label `a` (in the working
set, which class `a` enters through sample 2); sample 1 contributes no
dataset entry. -/
theorem user_label_out_of_class_set_drops_witness :
    ((DB.mk [⟨1, ['a'], mkRat 9 10, 0, 1⟩, ⟨2, ['a'], mkRat 9 10, 1, 1⟩]
        [⟨1, ['x']⟩] [⟨1, "m", [0, 0, 0, 0]⟩, ⟨2, "m", [0, 0, 0, 0]⟩]
      ).labels_user.filter (fun x => x.sample_id == 1) = [⟨1, ['x']⟩] ∧
     ['a'] ∈ workingClassIds (loadTrainingRows
        (DB.mk [⟨1, ['a'], mkRat 9 10, 0, 1⟩, ⟨2, ['a'], mkRat 9 10, 1, 1⟩]
          [⟨1, ['x']⟩] [⟨1, "m", [0, 0, 0, 0]⟩, ⟨2, "m", [0, 0, 0, 0]⟩])
        "m" (mkRat 85 100) 1 true) [['a']]) ∧
    ((loadTrainingRows
        (DB.mk [⟨1, ['a'], mkRat 9 10, 0, 1⟩, ⟨2, ['a'], mkRat 9 10, 1, 1⟩]
          [⟨1, ['x']⟩] [⟨1, "m", [0, 0, 0, 0]⟩, ⟨2, "m", [0, 0, 0, 0]⟩])
        "m" (mkRat 85 100) 1 true).countP fun r =>
      r.sample_id == 1 &&
        keptRow (workingClassIds (loadTrainingRows
          (DB.mk [⟨1, ['a'], mkRat 9 10, 0, 1⟩, ⟨2, ['a'], mkRat 9 10, 1, 1⟩]
            [⟨1, ['x']⟩] [⟨1, "m", [0, 0, 0, 0]⟩, ⟨2, "m", [0, 0, 0, 0]⟩])
          "m" (mkRat 85 100) 1 true) [['a']]) r) = 0 := by
  have h := user_label_out_of_class_set_drops
    (DB.mk [⟨1, ['a'], mkRat 9 10, 0, 1⟩, ⟨2, ['a'], mkRat 9 10, 1, 1⟩]
      [⟨1, ['x']⟩] [⟨1, "m", [0, 0, 0, 0]⟩, ⟨2, "m", [0, 0, 0, 0]⟩])
    "m" (mkRat 85 100) 1 1 ⟨1, ['x']⟩ ['a'] ⟨1, "m", [0, 0, 0, 0]⟩ [['a']]
    (by decide) (by decide) rfl rfl (by decide) (by decide) (by decide)
  exact ⟨⟨by decide, by decide⟩, h.2⟩

/-! ### The class-count guard (error handling) -/

/-- C6: when the built label vector has fewer than 2 distinct values,
the run fails with `InsufficientClasses` and issues no store commit —
whatever the remainder of the pipeline (splitting, fitting, calibration,
evaluation, export) would have written. -/
theorem insufficient_classes_aborts (db : DB) (m : String) (mc : ℚ)
    (rv : Int) (useUser : Bool) (classOrder : List (List Char))
    (rest : List Commit) (X : List (List Nat)) (y : List Nat)
    (cids : List (List Char))
    (hrows : loadTrainingRows db m mc rv useUser ≠ [])
    (hok : buildArraysE (loadTrainingRows db m mc rv useUser) classOrder
      = Except.ok (X, y, cids))
    (hy : distinctCount y < 2) :
    runPipeline db m mc rv useUser classOrder rest
      = ([], some PipelineErr.insufficientClasses) := by
  unfold runPipeline
  rw [if_neg hrows, hok]
  simp [hy]

/-- Witness for C6: two samples, both resolved to the single class `a`;
the pipeline aborts with `InsufficientClasses` and the commit list is
empty even though the abstracted remainder would have committed a head. -/
theorem insufficient_classes_aborts_witness :
    (loadTrainingRows (DB.mk [⟨1, ['a'], mkRat 9 10, 0, 1⟩,
        ⟨2, ['a'], mkRat 9 10, 1, 1⟩] []
        [⟨1, "m", [0, 0, 0, 0]⟩, ⟨2, "m", [0, 0, 0, 0]⟩])
      "m" (mkRat 85 100) 1 false ≠ [] ∧
     buildArraysE (loadTrainingRows (DB.mk [⟨1, ['a'], mkRat 9 10, 0, 1⟩,
        ⟨2, ['a'], mkRat 9 10, 1, 1⟩] []
        [⟨1, "m", [0, 0, 0, 0]⟩, ⟨2, "m", [0, 0, 0, 0]⟩])
      "m" (mkRat 85 100) 1 false) [['a']]
        = Except.ok ([[0], [0]], [0, 0], [['a']]) ∧
     distinctCount [0, 0] < 2) ∧
    runPipeline (DB.mk [⟨1, ['a'], mkRat 9 10, 0, 1⟩,
        ⟨2, ['a'], mkRat 9 10, 1, 1⟩] []
        [⟨1, "m", [0, 0, 0, 0]⟩, ⟨2, "m", [0, 0, 0, 0]⟩])
      "m" (mkRat 85 100) 1 false [['a']] [Commit.head "h"]
      = ([], some PipelineErr.insufficientClasses) :=
  ⟨⟨by decide, rfl, by decide⟩,
   insufficient_classes_aborts (DB.mk [⟨1, ['a'], mkRat 9 10, 0, 1⟩,
      ⟨2, ['a'], mkRat 9 10, 1, 1⟩] []
      [⟨1, "m", [0, 0, 0, 0]⟩, ⟨2, "m", [0, 0, 0, 0]⟩])
    "m" (mkRat 85 100) 1 false [['a']] [Commit.head "h"]
    [[0], [0]] [0, 0] [['a']] (by decide) rfl (by decide)⟩

/-! ### The fallback temperature grid (Calibrator) -/

lemma rpow_ten_mul (e : ℝ) : ((10:ℝ) ^ e) ^ (10:ℕ) = (10:ℝ) ^ (e * 10) := by
  rw [← Real.rpow_natCast ((10:ℝ) ^ e) 10,
    ← Real.rpow_mul (by norm_num : (0:ℝ) ≤ 10)]
  norm_num

lemma rpow_seven_tenths_lt_seven : (10:ℝ) ^ ((7:ℝ)/10) < 7 := by
  by_contra hc
  push_neg at hc
  have hp : (7:ℝ) ^ (10:ℕ) ≤ ((10:ℝ) ^ ((7:ℝ)/10)) ^ (10:ℕ) :=
    pow_le_pow_left (by norm_num) hc 10
  rw [rpow_ten_mul] at hp
  have h7 : (7:ℝ)/10 * 10 = ((7:ℕ):ℝ) := by norm_num
  rw [h7, Real.rpow_natCast] at hp
  norm_num at hp

lemma one_twentieth_le_rpow : (1:ℝ)/20 ≤ (10:ℝ) ^ (-(13:ℝ)/10) := by
  have hpos : (0:ℝ) < (10:ℝ) ^ ((13:ℝ)/10) :=
    Real.rpow_pos_of_pos (by norm_num) _
  have hle : (10:ℝ) ^ ((13:ℝ)/10) ≤ 20 := by
    by_contra hc
    push_neg at hc
    have hp : (20:ℝ) ^ (10:ℕ) ≤ ((10:ℝ) ^ ((13:ℝ)/10)) ^ (10:ℕ) :=
      pow_le_pow_left (by norm_num) hc.le 10
    rw [rpow_ten_mul] at hp
    have h13 : (13:ℝ)/10 * 10 = ((13:ℕ):ℝ) := by norm_num
    rw [h13, Real.rpow_natCast] at hp
    norm_num at hp
  have hneg : (10:ℝ) ^ (-(13:ℝ)/10) = ((10:ℝ) ^ ((13:ℝ)/10))⁻¹ := by
    rw [neg_div, Real.rpow_neg (by norm_num : (0:ℝ) ≤ 10)]
  rw [hneg]
  calc (1:ℝ)/20 = (20:ℝ)⁻¹ := one_div 20
    _ ≤ ((10:ℝ) ^ ((13:ℝ)/10))⁻¹ := inv_le_inv_of_le hpos hle

lemma gridExp_cast (k : Nat) : ((gridExp k : ℚ) : ℝ) = -13/10 + (k:ℝ) * (2/39) := by
  unfold gridExp
  push_cast
  ring

lemma gridPoint_lt_seven (k : Nat) (hk : k < 40) : gridPoint k < 7 := by
  unfold gridPoint
  have hexp : ((gridExp k : ℚ) : ℝ) ≤ (7:ℝ)/10 := by
    rw [gridExp_cast]
    have hk39 : (k:ℝ) ≤ 39 := by exact_mod_cast Nat.lt_succ_iff.mp hk
    nlinarith
  calc (10:ℝ) ^ ((gridExp k : ℚ) : ℝ)
      ≤ (10:ℝ) ^ ((7:ℝ)/10) :=
        Real.rpow_le_rpow_of_exponent_le (by norm_num) hexp
    _ < 7 := rpow_seven_tenths_lt_seven

lemma gridPoint_ge_one_twentieth (k : Nat) : (1:ℝ)/20 ≤ gridPoint k := by
  unfold gridPoint
  have hexp : (-(13:ℝ)/10) ≤ ((gridExp k : ℚ) : ℝ) := by
    rw [gridExp_cast]
    have hnn : (0:ℝ) ≤ (k:ℝ) * (2/39) := by positivity
    linarith
  exact le_trans one_twentieth_le_rpow
    (Real.rpow_le_rpow_of_exponent_le (by norm_num) hexp)

/-- C3 fails as stated: every candidate of the fallback grid
`np.logspace(-1.3, 0.7, num=40)` is below 7, although 7 lies inside the
optimizer bound `[0.05, 10.0]` — the grid spans `[10^(-1.3), 10^(0.7)]`,
about `[0.0501, 5.01]`, and does not cover the bound's upper half. -/
theorem fit_temperature_grid_counterexample :
    (∀ k, k < 40 → gridPoint k < 7) ∧ ((1:ℝ)/20 ≤ 7 ∧ (7:ℝ) ≤ 10) :=
  ⟨fun k hk => gridPoint_lt_seven k hk, by norm_num, by norm_num⟩

lemma pickBest_foldl (loss : ℝ → ℝ) (l : List ℝ) : ∀ p : ℝ × ℝ,
    p.2 = loss p.1 →
    ((l.foldl (fun q t => if loss t < q.2 then (t, loss t) else q) p).2
      = loss (l.foldl (fun q t => if loss t < q.2 then (t, loss t) else q) p).1) ∧
    ((l.foldl (fun q t => if loss t < q.2 then (t, loss t) else q) p).1 = p.1 ∨
      (l.foldl (fun q t => if loss t < q.2 then (t, loss t) else q) p).1 ∈ l) ∧
    (l.foldl (fun q t => if loss t < q.2 then (t, loss t) else q) p).2 ≤ p.2 ∧
    ∀ t ∈ l,
      (l.foldl (fun q t => if loss t < q.2 then (t, loss t) else q) p).2 ≤ loss t := by
  induction l with
  | nil => exact fun p hp => ⟨hp, Or.inl rfl, le_refl _, by simp⟩
  | cons a t ih =>
      intro p hp
      simp only [List.foldl_cons]
      by_cases ha : loss a < p.2
      · rw [if_pos ha]
        obtain ⟨hl, hmem, hinit, hall⟩ := ih (a, loss a) rfl
        refine ⟨hl, ?_, ?_, ?_⟩
        · rcases hmem with h | h
          · exact Or.inr (h ▸ List.mem_cons_self a t)
          · exact Or.inr (List.mem_cons_of_mem a h)
        · exact le_of_lt (lt_of_le_of_lt hinit ha)
        · intro x hx
          rcases List.mem_cons.mp hx with rfl | hxt
          · exact hinit
          · exact hall x hxt
      · rw [if_neg ha]
        obtain ⟨hl, hmem, hinit, hall⟩ := ih p hp
        refine ⟨hl, ?_, hinit, ?_⟩
        · rcases hmem with h | h
          · exact Or.inl h
          · exact Or.inr (List.mem_cons_of_mem a h)
        · intro x hx
          rcases List.mem_cons.mp hx with rfl | hxt
          · exact le_trans hinit (not_lt.mp ha)
          · exact hall x hxt

/-- C3 amended: when the optimizer import or call raises, the fallback
runs a 40-point log-spaced grid search whose candidates all lie in
`[10^(-1.3), 10^(0.7)]` — inside, but not covering, the optimizer bound
`[0.05, 10.0]` — and returns the candidate (among `T = 1.0` and the
grid) with the lowest validation NLL; when the optimizer returns an
unsuccessful result without raising, no grid search runs and the
initial `T = 1.0` is kept. -/
theorem fit_temperature_fallback_grid (loss : ℝ → ℝ) (k : Nat) (hk : k < 40)
    (x : ℝ) :
    ((1:ℝ)/20 ≤ gridPoint k ∧ gridPoint k < 7) ∧
    (fitTemperature loss OptResult.raises ∈ (1:ℝ) :: gridTemps ∧
      ∀ t ∈ (1:ℝ) :: gridTemps,
        loss (fitTemperature loss OptResult.raises) ≤ loss t) ∧
    fitTemperature loss (OptResult.returns false x) = 1 := by
  refine ⟨⟨gridPoint_ge_one_twentieth k, gridPoint_lt_seven k hk⟩, ?_, rfl⟩
  show fallbackTemp loss ∈ (1:ℝ) :: gridTemps ∧
    ∀ t ∈ (1:ℝ) :: gridTemps, loss (fallbackTemp loss) ≤ loss t
  unfold fallbackTemp
  obtain ⟨hl, hmem, hinit, hall⟩ :=
    pickBest_foldl loss gridTemps ((1:ℝ), loss 1) rfl
  constructor
  · rcases hmem with h | h
    · rw [h]
      exact List.mem_cons_self 1 gridTemps
    · exact List.mem_cons_of_mem 1 h
  · intro t ht
    rw [← hl]
    rcases List.mem_cons.mp ht with rfl | htg
    · exact hinit
    · exact hall t htg

/-- Witness for C3's amended statement at the constant loss, grid index
0 and an unsuccessful optimizer result at `x = 2`. -/
theorem fit_temperature_fallback_grid_witness :
    ((1:ℝ)/20 ≤ gridPoint 0 ∧ gridPoint 0 < 7) ∧
    (fitTemperature (fun _ => (0:ℝ)) OptResult.raises ∈ (1:ℝ) :: gridTemps ∧
      ∀ t ∈ (1:ℝ) :: gridTemps, (0:ℝ) ≤ (0:ℝ)) ∧
    fitTemperature (fun _ => (0:ℝ)) (OptResult.returns false 2) = 1 :=
  fit_temperature_fallback_grid (fun _ => (0:ℝ)) 0 (by norm_num) 2

end TrainLogreg
